import Mathlib

/-!
# Verification of the Nakama JavaScript match core and runtime module

Shallow embedding of `RuntimeJavascriptMatchCore` (match lifecycle, broadcast
validation and resolution) and `runtimeJavascriptNakamaModule` (base64 helpers,
HTTP request timeout handling), with theorems settling the specified
properties against the embedded code.

Go values that cross the goja `Export()` boundary are modelled by `GoVal`;
goja-level values (which additionally distinguish `null` from `undefined`
before export) by `JsValue`.  Machine integers (`int64`) are modelled as
`Int`; byte strings as `List Nat` with each element `< 256`.
-/

namespace Nakama

/-- A Go `interface{}` value as produced by goja's `Export()`:
`nil`, `string`, `int64`, `float64` (payload irrelevant to the type
assertions in the code, kept opaque), `bool`, `map[string]interface{}`
(association list, first binding wins), `[]interface{}`, or any other
dynamic type (on which every type assertion in the embedded code fails). -/
inductive GoVal where
  | vNull : GoVal
  | vStr : String → GoVal
  | vInt : Int → GoVal
  | vFloat : GoVal
  | vBool : Bool → GoVal
  | vMap : List (String × GoVal) → GoVal
  | vArr : List GoVal → GoVal
  | vOther : GoVal

/-- Go map indexing with the comma-ok form `v, ok := m[key]`: `some` of the
mapped value when the key is present, `none` otherwise. -/
def findGo (m : List (String × GoVal)) (key : String) : Option GoVal :=
  match m.find? (fun kv => kv.1 = key) with
  | some kv => some kv.2
  | none => none

/-- Go map indexing `v, _ := m[key]` followed by the code's `v == nil` test:
the mapped value, or `nil` when the key is absent (Go's zero-value-on-miss
semantics for `interface{}` maps), so a missing key and a present `nil`
value are indistinguishable to the caller. -/
def lookupGo (m : List (String × GoVal)) (key : String) : GoVal :=
  match m.find? (fun kv => kv.1 = key) with
  | some kv => kv.2
  | none => GoVal.vNull

/-- A goja runtime value as seen before `Export()`: the code distinguishes
`goja.IsNull`/`goja.IsUndefined` from every other value, which it exports. -/
inductive JsValue where
  | undef : JsValue
  | null : JsValue
  | val : GoVal → JsValue

/-- ASCII lowercase hex digit test, as accepted by the canonical UUID
text form. -/
def isHexDigitChar (c : Char) : Bool :=
  let n := c.toNat
  (decide (48 ≤ n) && decide (n ≤ 57)) ||
  (decide (97 ≤ n) && decide (n ≤ 102))

/-- Modelled from the spec: `uuid.FromString` of the gofrs uuid library
(absent from src/) parsing a "128-bit id"; modelled as acceptance of the
canonical lowercase textual form `xxxxxxxx-xxxx-xxxx-xxxx-xxxxxxxxxxxx`,
under which textual equality of accepted strings coincides with equality
of the parsed 128-bit values. -/
def isCanonicalUUID (s : String) : Bool :=
  let cs := s.toList
  decide (cs.length = 36) &&
    (List.range 36).all fun i =>
      if i = 8 ∨ i = 13 ∨ i = 18 ∨ i = 23 then
        decide (cs.getD i ' ' = '-')
      else
        isHexDigitChar (cs.getD i ' ')

/-- `PresenceID`: projection of a presence to `{SessionID, Node}`, the
uniqueness key used for recipient targeting. -/
structure PresenceID where
  sessionID : String
  node : String
deriving DecidableEq, Repr

/-- `rtapi.UserPresence` as filled in by `validateBroadcast`'s sender path. -/
structure UserPresence where
  userId : String
  sessionId : String
  username : String
deriving DecidableEq, Repr

/-- The `rtapi.Envelope_MatchData` payload built by `validateBroadcast`. -/
structure Envelope where
  matchId : String
  presence : Option UserPresence
  opCode : Int
  data : Option String
  reliable : Bool
deriving DecidableEq, Repr

/-! ## MatchInit (lifecycle init: tick rate, label, state validation) -/

/-- Successful result of `MatchInit`: the new opaque state, the accepted
tick rate, and the label (defaulting to the empty string). -/
structure InitResult where
  state : GoVal
  tickRate : Int
  label : String

/-- `RuntimeJavascriptMatchCore.MatchInit` validation of the handler's
return value: must export to a map; `tick_rate` must be present, an `int64`,
and within `[1,30]`; `label`, when present, must be a string (defaulting to
`""`); `state` must be present. -/
def MatchInit (retVal : GoVal) : Except String InitResult :=
  match retVal with
  | GoVal.vMap retMap =>
    match findGo retMap "tick_rate" with
    | none => Except.error "match_init return value has no 'tick_rate' property"
    | some tickRateRet =>
      match tickRateRet with
      | GoVal.vInt rate =>
        if rate < 1 ∨ rate > 30 then
          Except.error "match_init 'tick_rate' must be a number between 1 and 30"
        else
          match findGo retMap "label" with
          | none =>
            match findGo retMap "state" with
            | none => Except.error "match_init is expected to return an object with a 'state' property"
            | some state => Except.ok ⟨state, rate, ""⟩
          | some (GoVal.vStr label) =>
            match findGo retMap "state" with
            | none => Except.error "match_init is expected to return an object with a 'state' property"
            | some state => Except.ok ⟨state, rate, label⟩
          | some _ => Except.error "match_init 'label' value must be a string"
      | _ => Except.error "match_init 'tick_rate' must be a number between 1 and 30"
  | _ => Except.error "match_init is expected to return an object with 'state', 'tick_rate' and 'label' properties"

/-! ## MatchLoop (inbound-queue drain and return-value validation) -/

/-- `MatchDataMessage`: one inbound client message as consumed by
`MatchLoop`'s drain loop. -/
structure MatchDataMessage where
  userID : String
  sessionID : String
  username : String
  node : String
  opCode : Int
  data : Option String
  reliable : Bool
  receiveTime : Int

/-- The `msgObj` built for one drained message (MatchLoop lines 318-335):
a JS object carrying the sender presence and the message fields, with a
`nil` payload presented as JS `null`. -/
def msgToObj (msg : MatchDataMessage) : GoVal :=
  GoVal.vMap
    [("sender", GoVal.vMap
        [("user_id", GoVal.vStr msg.userID),
         ("session_id", GoVal.vStr msg.sessionID),
         ("username", GoVal.vStr msg.username),
         ("node", GoVal.vStr msg.node)]),
     ("op_code", GoVal.vInt msg.opCode),
     ("data", match msg.data with
              | some s => GoVal.vStr s
              | none => GoVal.vNull),
     ("reliable", GoVal.vBool msg.reliable),
     ("receive_time_ms", GoVal.vInt msg.receiveTime)]

/-- `MatchLoop`'s drain of the inbound channel: `size := len(inputCh)` is
read once at the start of the call, then exactly `size` messages are
received in FIFO order.  `size` is that snapshot and `stream` the FIFO
contents of the channel over the whole call (contents at the snapshot
followed by any later arrivals); the result is the drained prefix and the
channel contents left for the next call. -/
def matchLoopDrain (size : Nat) (stream : List MatchDataMessage) :
    List MatchDataMessage × List MatchDataMessage :=
  (stream.take size, stream.drop size)

/-- `MatchLoop`'s handling of the handler's return value (lines 344-358):
JS `null`/`undefined` is a valid no-op (`nil, nil`); otherwise the value
must export to a map with a `state` key, whose value becomes the new
state. -/
def matchLoopPost (retVal : JsValue) : Except String (Option GoVal) :=
  match retVal with
  | JsValue.null => Except.ok none
  | JsValue.undef => Except.ok none
  | JsValue.val v =>
    match v with
    | GoVal.vMap retMap =>
      match findGo retMap "state" with
      | none => Except.error "match_loop is expected to return an object with 'state' property"
      | some newState => Except.ok (some newState)
    | _ => Except.error "match_loop is expected to return an object with 'state' property"

/-- `RuntimeJavascriptMatchCore.MatchLoop`: drains the inbound channel by
length snapshot, converts the drained messages into JS objects in FIFO
order, invokes the loop handler on them, and validates the handler's
return value.  `queueAtStart` is the channel content when the call begins
and `laterArrivals` whatever is enqueued after the snapshot; the second
component is the channel content the next call will see. -/
def MatchLoop (tick : Int) (state : GoVal)
    (queueAtStart laterArrivals : List MatchDataMessage)
    (handler : Int → GoVal → List GoVal → JsValue) :
    Except String (Option GoVal) × List MatchDataMessage :=
  let size := queueAtStart.length
  let drained := matchLoopDrain size (queueAtStart ++ laterArrivals)
  let inputs := drained.1.map msgToObj
  (matchLoopPost (handler tick state inputs), drained.2)

/-! ## runtimeJavascriptNakamaModule: HTTP client timeout -/

/-- The mutable state of `runtimeJavascriptNakamaModule` relevant to
`httpRequest`: the shared `http.Client`'s timeout, in milliseconds. -/
structure NakamaModuleState where
  clientTimeoutMs : Int
deriving DecidableEq, Repr

/-- `NewRuntimeJavascriptNakamaModule` builds the module with a single
`http.Client` whose timeout is 5 seconds (5000 ms). -/
def NewRuntimeJavascriptNakamaModule : NakamaModuleState :=
  ⟨5000⟩

/-- The timeout handling inside `httpRequest` (lines 201-206): when a
timeout argument is supplied, the *shared* client's timeout field is
overwritten with it (in milliseconds) before the request; the request then
runs with the client's current timeout.  Returns the module state after
the call and the timeout the call used. -/
def httpRequestTimeout (st : NakamaModuleState) (timeoutArg : Option Int) :
    NakamaModuleState × Int :=
  match timeoutArg with
  | some t => (⟨t⟩, t)
  | none => (st, st.clientTimeoutMs)

/-! ## Broadcast validation and resolution (`validateBroadcast`) -/

instance : Inhabited PresenceID := ⟨⟨"", ""⟩⟩

/-- Modelled from the spec: `getJsInt` (absent from src/), reading an
integer argument; non-integer values are a protocol violation. -/
def getJsInt (v : JsValue) : Except String Int :=
  match v with
  | JsValue.val (GoVal.vInt n) => Except.ok n
  | _ => Except.error "Invalid argument - int expected."

/-- Modelled from the spec: `getJsBool` (absent from src/), reading a
boolean argument; non-boolean values are a protocol violation. -/
def getJsBool (v : JsValue) : Except String Bool :=
  match v with
  | JsValue.val (GoVal.vBool b) => Except.ok b
  | _ => Except.error "Invalid argument - boolean expected."

/-- Modelled from the spec: `getJsString` (absent from src/), reading a
string argument; non-string values are a protocol violation. -/
def getJsString (v : JsValue) : Except String String :=
  match v with
  | JsValue.val (GoVal.vStr s) => Except.ok s
  | _ => Except.error "Invalid argument - string expected."

/-- Modelled from the spec: `MatchPresenceList.Contains` (absent from
src/) — membership test of a `PresenceID` against the directory of
current members, matching on the (SessionID, Node) key. -/
def containsPresence (presenceList : List PresenceID) (p : PresenceID) : Bool :=
  presenceList.any fun a => decide (p.sessionID = a.sessionID ∧ p.node = a.node)

/-- Modelled from the spec: `MatchPresenceList.ListPresenceIDs` (absent
from src/) — the full current member listing, returned as a snapshot the
caller may mutate without affecting the directory. -/
def listPresenceIDs (presenceList : List PresenceID) : List PresenceID :=
  presenceList

/-- Go's swap-removal of index `i` from a slice:
`a[i] = a[len(a)-1]; a = a[:len(a)-1]`. -/
def swapRemove {α : Type} [Inhabited α] (l : List α) (i : Nat) : List α :=
  (l.set i (l.getD (l.length - 1) default)).dropLast

/-- The inner search of the reconciliation loop (lines 549-557): the index
`j` of the first member entry matching the requested (SessionID, Node),
`none` when no entry matches. -/
def findMatchIdx (presenceID : PresenceID) : List PresenceID → Option Nat
  | [] => none
  | a :: rest =>
    if presenceID.sessionID = a.sessionID ∧ presenceID.node = a.node then some 0
    else (findMatchIdx presenceID rest).map (· + 1)

/-- The reconciliation loop of `validateBroadcast` (lines 546-564): walk
the requested `presenceIDs` with index `i`; for each entry search the
mutable copy `actual` of the member listing for the first (SessionID,
Node) match; on a match swap-remove the matched member entry and advance,
otherwise swap-remove the requested entry and retry index `i`. -/
def reconcile (i : Nat) (pids actual : List PresenceID) : List PresenceID :=
  if h : i < pids.length then
    match findMatchIdx (pids.get ⟨i, h⟩) actual with
    | some j => reconcile (i + 1) pids (swapRemove actual j)
    | none => reconcile i (swapRemove pids i) actual
  else pids
termination_by pids.length - i
decreasing_by
  · omega
  · have hlen : (swapRemove pids i).length = pids.length - 1 := by simp [swapRemove]
    omega

/-- The membership-filtering step of `validateBroadcast` (lines 538-570)
for a supplied non-`nil` filter: a single requested presence is checked
with `Contains`, a longer filter is reconciled against the member listing;
`none` is the no-op outcome (no requested recipient is a member). -/
def resolveFilterStep (presenceList : List PresenceID) (pids : List PresenceID) :
    Option (List PresenceID) :=
  if pids.length = 1 then
    if containsPresence presenceList (pids.headD default) then some pids else none
  else
    let kept := reconcile 0 pids (listPresenceIDs presenceList)
    if kept.isEmpty then none else some kept

/-- The data argument (lines 428-436): `nil`/`undefined` means no payload,
anything else must export to a string. -/
def decodeDataArg (arg1 : JsValue) : Except String (Option String) :=
  match arg1 with
  | JsValue.undef => Except.ok none
  | JsValue.null => Except.ok none
  | JsValue.val v =>
    match v with
    | GoVal.vStr s => Except.ok (some s)
    | _ => Except.error "expects data to be a string or nil"

/-- One filter entry (lines 448-480): a map carrying a `session_id` string
that parses as a UUID and a `node_id` string. -/
def decodePresenceIDEntry (p : GoVal) : Except String PresenceID :=
  match p with
  | GoVal.vMap pMap =>
    match lookupGo pMap "session_id" with
    | GoVal.vNull => Except.error "presence is expected to contain a 'session_id'"
    | GoVal.vStr sidStr =>
      if isCanonicalUUID sidStr then
        match lookupGo pMap "node_id" with
        | GoVal.vNull => Except.error "expects presence to contain a 'node_id'"
        | GoVal.vStr node => Except.ok ⟨sidStr, node⟩
        | _ => Except.error "expects a 'node_id' string"
      else Except.error "expects a valid 'session_id'"
    | _ => Except.error "expects a 'session_id' string"
  | _ => Except.error "expects a valid set of presences"

/-- The filter argument (lines 438-482): `nil`/`undefined` means no filter
(`none`); otherwise the value must export to an array whose entries all
decode as presence IDs, in order. -/
def decodeFilterArg (arg2 : JsValue) : Except String (Option (List PresenceID)) :=
  match arg2 with
  | JsValue.undef => Except.ok none
  | JsValue.null => Except.ok none
  | JsValue.val v =>
    match v with
    | GoVal.vArr filterSlice =>
      (filterSlice.mapM decodePresenceIDEntry).map (fun l => some l)
    | _ => Except.error "expects an array of presences or nil"

/-- The sender argument (lines 489-536): `nil`/`undefined` means
server-originated (`none`); otherwise the value must export to a map with
`user_id` and `session_id` UUID strings and a present `username`.  The
source re-runs the username type assertion on `sidVal` (the session-id
value, already known to be a string), so the assertion always succeeds and
the envelope's `Username` field is assigned the session-id string. -/
def decodeSenderArg (arg3 : JsValue) : Except String (Option UserPresence) :=
  match arg3 with
  | JsValue.undef => Except.ok none
  | JsValue.null => Except.ok none
  | JsValue.val v =>
    match v with
    | GoVal.vMap senderMap =>
      match lookupGo senderMap "user_id" with
      | GoVal.vNull => Except.error "expects presence to contain 'user_id'"
      | GoVal.vStr userIDStr =>
        if isCanonicalUUID userIDStr then
          match lookupGo senderMap "session_id" with
          | GoVal.vNull => Except.error "presence is expected to contain a 'session_id'"
          | GoVal.vStr sidStr =>
            if isCanonicalUUID sidStr then
              match lookupGo senderMap "username" with
              | GoVal.vNull => Except.error "presence is expected to contain a 'username'"
              | _ => Except.ok (some ⟨userIDStr, sidStr, sidStr⟩)
            else Except.error "expects a valid 'session_id'"
          | _ => Except.error "expects a 'session_id' string"
        else Except.error "expects presence to contain valid user_id"
      | _ => Except.error "expects presence to contain 'user_id' string"
    | _ => Except.error "expects sender to be an object"

/-- The reliable argument (lines 572-576): defaults to `true`;
`nil`/`undefined` keeps the default, anything else must be a boolean. -/
def decodeReliableArg (arg4 : JsValue) : Except String Bool :=
  match arg4 with
  | JsValue.undef => Except.ok true
  | JsValue.null => Except.ok true
  | v => getJsBool v

/-- `RuntimeJavascriptMatchCore.validateBroadcast`: validates the five
dispatcher arguments, resolves the recipient filter against the presence
list, and builds the outgoing envelope.  The no-op outcomes return
`([], none, false)`, mirroring the source's `(nil, nil, false)`. -/
def validateBroadcast (matchIdStr : String) (presenceList : List PresenceID)
    (arg0 arg1 arg2 arg3 arg4 : JsValue) :
    Except String (List PresenceID × Option Envelope × Bool) := do
  let opCode ← getJsInt arg0
  let dataBytes ← decodeDataArg arg1
  let presenceIDs? ← decodeFilterArg arg2
  if presenceIDs? = some [] then
    -- Filter is empty, there are no requested message targets.
    pure ([], none, false)
  else
    let presence? ← decodeSenderArg arg3
    match presenceIDs? with
    | some pids =>
      match resolveFilterStep presenceList pids with
      | none => pure ([], none, false)
      | some kept => do
        let reliable ← decodeReliableArg arg4
        pure (kept,
          some ⟨matchIdStr, presence?, opCode, dataBytes, reliable⟩,
          reliable)
    | none => do
      let reliable ← decodeReliableArg arg4
      pure (listPresenceIDs presenceList,
        some ⟨matchIdStr, presence?, opCode, dataBytes, reliable⟩,
        reliable)

/-! ## Dispatcher operations: broadcast, deferred broadcast, kick, label -/

/-- Outcome of a `broadcastMessage` dispatcher call: fatal error (panic),
nothing sent, or a send of the envelope to the resolved recipients. -/
inductive BroadcastOutcome where
  | errOut (msg : String) : BroadcastOutcome
  | noSend : BroadcastOutcome
  | sent (recipients : List PresenceID) (env : Option Envelope) (reliable : Bool) :
      BroadcastOutcome

/-- `broadcastMessage`: reject when the match is stopped, otherwise
validate and, when any recipients were resolved, send inline via the
router. -/
def broadcastMessage (stopped : Bool) (matchIdStr : String)
    (presenceList : List PresenceID) (arg0 arg1 arg2 arg3 arg4 : JsValue) :
    BroadcastOutcome :=
  if stopped then BroadcastOutcome.errOut "match stopped"
  else
    match validateBroadcast matchIdStr presenceList arg0 arg1 arg2 arg3 arg4 with
    | Except.error e => BroadcastOutcome.errOut e
    | Except.ok (pids, env, rel) =>
      if pids.length ≠ 0 then BroadcastOutcome.sent pids env rel
      else BroadcastOutcome.noSend

/-- `DeferredMessage` as packaged by `broadcastMessageDeferred`. -/
structure DeferredMessage where
  presenceIDs : List PresenceID
  envelope : Option Envelope
  reliable : Bool

/-- Outcome of a `broadcastMessageDeferred` call (the external defer
function is modelled as succeeding; its own failure path only re-raises
its error). -/
inductive DeferOutcome where
  | errOut (msg : String) : DeferOutcome
  | noDefer : DeferOutcome
  | deferred (dm : DeferredMessage) : DeferOutcome

/-- `broadcastMessageDeferred`: reject when the match is stopped,
otherwise validate and, when any recipients were resolved, package the
broadcast as a `DeferredMessage`. -/
def broadcastMessageDeferred (stopped : Bool) (matchIdStr : String)
    (presenceList : List PresenceID) (arg0 arg1 arg2 arg3 arg4 : JsValue) :
    DeferOutcome :=
  if stopped then DeferOutcome.errOut "match stopped"
  else
    match validateBroadcast matchIdStr presenceList arg0 arg1 arg2 arg3 arg4 with
    | Except.error e => DeferOutcome.errOut e
    | Except.ok (pids, env, rel) =>
      if pids.length ≠ 0 then DeferOutcome.deferred ⟨pids, env, rel⟩
      else DeferOutcome.noDefer

/-- `MatchPresence` as decoded by `matchKick`. -/
structure MatchPresence where
  userID : String
  sessionID : String
  node : String
deriving DecidableEq, Repr

/-- One kick entry (lines 611-655): a map with `user_id` and `session_id`
UUID strings and a `node_id` string. -/
def decodeKickPresence (p : GoVal) : Except String MatchPresence :=
  match p with
  | GoVal.vMap pMap =>
    match lookupGo pMap "user_id" with
    | GoVal.vNull => Except.error "expects presence to contain 'user_id'"
    | GoVal.vStr userIDStr =>
      if isCanonicalUUID userIDStr then
        match lookupGo pMap "session_id" with
        | GoVal.vNull => Except.error "presence is expected to contain a 'session_id'"
        | GoVal.vStr sidStr =>
          if isCanonicalUUID sidStr then
            match lookupGo pMap "node_id" with
            | GoVal.vNull => Except.error "expects presence to contain a 'node_id'"
            | GoVal.vStr node => Except.ok ⟨userIDStr, sidStr, node⟩
            | _ => Except.error "expects a 'node_id' string"
          else Except.error "expects a valid 'session_id'"
        | _ => Except.error "expects a 'session_id' string"
      else Except.error "expects presence to contain valid user_id"
    | _ => Except.error "expects presence to contain 'user_id' string"
  | _ => Except.error "expects a valid set of presences"

/-- Outcome of a `matchKick` dispatcher call. -/
inductive KickOutcome where
  | errOut (msg : String) : KickOutcome
  | noKick : KickOutcome
  | kicked (presences : List MatchPresence) : KickOutcome

/-- `matchKick`: reject when the match is stopped; a `nil`/`undefined`
argument is a silent no-op; otherwise the argument must be an array of
valid presences, which are kicked through the match registry. -/
def matchKick (stopped : Bool) (arg0 : JsValue) : KickOutcome :=
  if stopped then KickOutcome.errOut "match stopped"
  else
    match arg0 with
    | JsValue.undef => KickOutcome.noKick
    | JsValue.null => KickOutcome.noKick
    | JsValue.val v =>
      match v with
      | GoVal.vArr presencesSlice =>
        match presencesSlice.mapM decodeKickPresence with
        | Except.error e => KickOutcome.errOut e
        | Except.ok ps => KickOutcome.kicked ps
      | _ => KickOutcome.errOut "expects an array of presence objects"

/-- Outcome of a `matchLabelUpdate` dispatcher call (the external
`UpdateMatchLabel` registry call is modelled as succeeding; its failure
path only re-raises its error). -/
inductive LabelOutcome where
  | errOut (msg : String) : LabelOutcome
  | updated (newLabel : String) : LabelOutcome

/-- `matchLabelUpdate`: reject when the match is stopped; otherwise the
argument must be a string, which becomes the new label (stored in the
label atomic and the context). -/
def matchLabelUpdate (stopped : Bool) (arg0 : JsValue) : LabelOutcome :=
  if stopped then LabelOutcome.errOut "match stopped"
  else
    match getJsString arg0 with
    | Except.error e => LabelOutcome.errOut e
    | Except.ok input => LabelOutcome.updated input

/-! ## base64 URL-safe encoding (`base64UrlEncode` / `base64UrlDecode`) -/

/-- Modelled from the spec: the RFC 4648 §5 URL-safe base64 alphabet used
by Go's `base64.URLEncoding` (absent from src/): sextet `i` to the byte
value of its character (`A-Z`, `a-z`, `0-9`, `-`, `_`). -/
def b64Char (i : Nat) : Nat :=
  if i < 26 then 65 + i
  else if i < 52 then 97 + (i - 26)
  else if i < 62 then 48 + (i - 52)
  else if i = 62 then 45
  else 95

/-- Inverse alphabet lookup: byte value of a character back to its sextet,
`none` outside the URL-safe alphabet (in particular for `=`, byte 61). -/
def b64Index (c : Nat) : Option Nat :=
  if 65 ≤ c ∧ c ≤ 90 then some (c - 65)
  else if 97 ≤ c ∧ c ≤ 122 then some (c - 97 + 26)
  else if 48 ≤ c ∧ c ≤ 57 then some (c - 48 + 52)
  else if c = 45 then some 62
  else if c = 95 then some 63
  else none

/-- Modelled from the spec: `base64.URLEncoding.EncodeToString` (Go
standard library, absent from src/): three input bytes become four
alphabet characters; a final one- or two-byte remainder becomes two or
three characters closed with `=` padding (byte 61). -/
def b64EncodeBytes : List Nat → List Nat
  | [] => []
  | [b0] => [b64Char (b0 / 4), b64Char (b0 % 4 * 16), 61, 61]
  | [b0, b1] =>
    [b64Char (b0 / 4), b64Char (b0 % 4 * 16 + b1 / 16), b64Char (b1 % 16 * 4), 61]
  | b0 :: b1 :: b2 :: rest =>
    b64Char (b0 / 4) :: b64Char (b0 % 4 * 16 + b1 / 16) ::
      b64Char (b1 % 16 * 4 + b2 / 64) :: b64Char (b2 % 64) :: b64EncodeBytes rest

/-- Modelled from the spec: `base64.URLEncoding.DecodeString` (Go standard
library, absent from src/): the input is consumed in four-character
quanta; `=` padding may close only the final quantum (two data characters
and `==` yield one byte, three and `=` two bytes); as in Go's default
non-strict mode, unused trailing bits of the final sextet are ignored. -/
def b64DecodeBytes : List Nat → Option (List Nat)
  | [] => some []
  | c0 :: c1 :: c2 :: c3 :: rest =>
    match b64Index c0, b64Index c1 with
    | some i0, some i1 =>
      if c2 = 61 then
        if c3 = 61 ∧ rest = [] then some [i0 * 4 + i1 / 16] else none
      else
        match b64Index c2 with
        | some i2 =>
          if c3 = 61 then
            if rest = [] then some [i0 * 4 + i1 / 16, i1 % 16 * 16 + i2 / 4] else none
          else
            match b64Index c3 with
            | some i3 =>
              match b64DecodeBytes rest with
              | some tail =>
                some ((i0 * 4 + i1 / 16) :: (i1 % 16 * 16 + i2 / 4) :: (i2 % 4 * 64 + i3) :: tail)
              | none => none
            | none => none
        | none => none
    | _, _ => none
  | _ => none

/-- `runtimeJavascriptNakamaModule.base64UrlEncode`: URL-safe encode of the
input bytes; with padding disabled the `=` characters are simply omitted
(`base64.RawURLEncoding`). -/
def base64UrlEncode (input : List Nat) (padding : Bool) : List Nat :=
  if padding then b64EncodeBytes input
  else (b64EncodeBytes input).filter fun c => decide (c ≠ 61)

/-- `runtimeJavascriptNakamaModule.base64UrlDecode`: with padding disabled
the input is first padded with `=` up to a multiple of four characters;
the result is then URL-safe decoded (`base64.URLEncoding`). -/
def base64UrlDecode (input : List Nat) (padding : Bool) : Option (List Nat) :=
  let padded :=
    if padding then input
    else if input.length % 4 = 0 then input
    else input ++ List.replicate (4 - input.length % 4) 61
  b64DecodeBytes padded

/-- The recipients a `BroadcastOutcome` delivers to (empty unless a send
actually happened). -/
def sentRecipients : BroadcastOutcome → List PresenceID
  | BroadcastOutcome.sent recipients _ _ => recipients
  | _ => []

theorem b64Index_b64Char : ∀ i < 64, b64Index (b64Char i) = some i := by decide

theorem b64Char_ne_pad : ∀ i < 64, b64Char i ≠ 61 := by decide

/-- The decoder inverts the encoder on any byte string. -/
theorem b64DecodeBytes_b64EncodeBytes (s : List Nat) (h : ∀ b ∈ s, b < 256) :
    b64DecodeBytes (b64EncodeBytes s) = some s := by
  match s with
  | [] => simp [b64EncodeBytes, b64DecodeBytes]
  | [b0] =>
    have hb0 : b0 < 256 := h b0 (by simp)
    have h0 : b64Index (b64Char (b0 / 4)) = some (b0 / 4) :=
      b64Index_b64Char _ (by omega)
    have h1 : b64Index (b64Char (b0 % 4 * 16)) = some (b0 % 4 * 16) :=
      b64Index_b64Char _ (by omega)
    simp [b64EncodeBytes, b64DecodeBytes, h0, h1]
    omega
  | [b0, b1] =>
    have hb0 : b0 < 256 := h b0 (by simp)
    have hb1 : b1 < 256 := h b1 (by simp)
    have h0 : b64Index (b64Char (b0 / 4)) = some (b0 / 4) :=
      b64Index_b64Char _ (by omega)
    have h1 : b64Index (b64Char (b0 % 4 * 16 + b1 / 16)) = some (b0 % 4 * 16 + b1 / 16) :=
      b64Index_b64Char _ (by omega)
    have h2 : b64Index (b64Char (b1 % 16 * 4)) = some (b1 % 16 * 4) :=
      b64Index_b64Char _ (by omega)
    have hne2 : b64Char (b1 % 16 * 4) ≠ 61 := b64Char_ne_pad _ (by omega)
    simp [b64EncodeBytes, b64DecodeBytes, h0, h1, h2, hne2]
    omega
  | b0 :: b1 :: b2 :: (rest : List Nat) =>
    have hb0 : b0 < 256 := h b0 (by simp)
    have hb1 : b1 < 256 := h b1 (by simp)
    have hb2 : b2 < 256 := h b2 (by simp)
    have ih : b64DecodeBytes (b64EncodeBytes rest) = some rest :=
      b64DecodeBytes_b64EncodeBytes rest (fun b hb => h b (by simp [hb]))
    have h0 : b64Index (b64Char (b0 / 4)) = some (b0 / 4) :=
      b64Index_b64Char _ (by omega)
    have h1 : b64Index (b64Char (b0 % 4 * 16 + b1 / 16)) = some (b0 % 4 * 16 + b1 / 16) :=
      b64Index_b64Char _ (by omega)
    have h2 : b64Index (b64Char (b1 % 16 * 4 + b2 / 64)) = some (b1 % 16 * 4 + b2 / 64) :=
      b64Index_b64Char _ (by omega)
    have h3 : b64Index (b64Char (b2 % 64)) = some (b2 % 64) :=
      b64Index_b64Char _ (by omega)
    have hne2 : b64Char (b1 % 16 * 4 + b2 / 64) ≠ 61 := b64Char_ne_pad _ (by omega)
    have hne3 : b64Char (b2 % 64) ≠ 61 := b64Char_ne_pad _ (by omega)
    simp [b64EncodeBytes, b64DecodeBytes, h0, h1, h2, h3, hne2, hne3, ih]
    omega
termination_by s.length

/-! ## Lemmas about the reconciliation loop -/

theorem presenceID_eq_iff (p a : PresenceID) :
    (p.sessionID = a.sessionID ∧ p.node = a.node) ↔ p = a := by
  cases p; cases a; simp [PresenceID.mk.injEq]

theorem containsPresence_iff_mem (l : List PresenceID) (p : PresenceID) :
    containsPresence l p = true ↔ p ∈ l := by
  simp only [containsPresence, List.any_eq_true, decide_eq_true_eq]
  constructor
  · rintro ⟨a, ha, hfields⟩
    rwa [(presenceID_eq_iff p a).mp hfields]
  · intro hp
    exact ⟨p, hp, rfl, rfl⟩

theorem findMatchIdx_none {pid : PresenceID} :
    ∀ {l : List PresenceID}, findMatchIdx pid l = none → pid ∉ l := by
  intro l
  induction l with
  | nil => simp
  | cons a rest ih =>
    intro hfind
    simp only [findMatchIdx] at hfind
    split at hfind
    · exact absurd hfind (by simp)
    · rename_i hne
      rw [Option.map_eq_none'] at hfind
      intro hmem
      rcases List.mem_cons.mp hmem with rfl | hmem
      · exact hne ⟨rfl, rfl⟩
      · exact ih hfind hmem

theorem findMatchIdx_some {pid : PresenceID} :
    ∀ {l : List PresenceID} {j : Nat}, findMatchIdx pid l = some j →
      ∃ h : j < l.length, l.get ⟨j, h⟩ = pid := by
  intro l
  induction l with
  | nil => simp [findMatchIdx]
  | cons a rest ih =>
    intro j hfind
    simp only [findMatchIdx] at hfind
    split at hfind
    · rename_i heq
      obtain rfl : j = 0 := by simpa using hfind.symm
      refine ⟨by simp, ?_⟩
      simp [((presenceID_eq_iff pid a).mp heq).symm]
    · rw [Option.map_eq_some'] at hfind
      obtain ⟨j', hj', rfl⟩ := hfind
      obtain ⟨h, hget⟩ := ih hj'
      exact ⟨by simpa using Nat.succ_lt_succ h, hget⟩

theorem set_append_cons {α : Type} (t : List α) (a x : α) (r : List α) :
    (t ++ a :: r).set t.length x = t ++ x :: r := by
  induction t with
  | nil => rfl
  | cons y ys ih => simp [List.set_cons_succ, ih]

theorem getD_append_cons {α : Type} [Inhabited α] (t : List α) (a : α) (r : List α) :
    (t ++ a :: r).getD t.length default = a := by
  induction t with
  | nil => rfl
  | cons y ys ih => simpa using ih

theorem swapRemove_last {α : Type} [Inhabited α] (t : List α) (a : α) :
    swapRemove (t ++ [a]) t.length = t := by
  have h1 : (t ++ [a]).length - 1 = t.length := by simp
  have h2 : (t ++ [a]).getD t.length default = a := getD_append_cons t a []
  have h3 : (t ++ [a]).set t.length a = t ++ [a] := set_append_cons t a a []
  simp only [swapRemove, h1, h2, h3]
  exact List.dropLast_concat

theorem swapRemove_concat {α : Type} [Inhabited α] (t : List α) (a : α) (r : List α) (b : α) :
    swapRemove (t ++ a :: (r ++ [b])) t.length = t ++ b :: r := by
  have hassoc : t ++ a :: (r ++ [b]) = (t ++ a :: r) ++ [b] := by simp
  have h1 : (t ++ a :: (r ++ [b])).length - 1 = (t ++ a :: r).length := by
    simp
  have h2 : ((t ++ a :: r) ++ [b]).getD (t ++ a :: r).length default = b :=
    getD_append_cons (t ++ a :: r) b []
  have h3 : (t ++ a :: (r ++ [b])).set t.length b = (t ++ b :: r) ++ [b] := by
    simpa using set_append_cons t a b (r ++ [b])
  rw [swapRemove, h1, hassoc, h2, ← hassoc, h3]
  exact List.dropLast_concat

theorem decomp_at {α : Type} (l : List α) (i : Nat) (h : i < l.length) :
    ∃ t r, t.length = i ∧ l = t ++ l.get ⟨i, h⟩ :: r := by
  refine ⟨l.take i, l.drop (i + 1), ?_, ?_⟩
  · simp [List.length_take]
    omega
  · conv_lhs => rw [← List.take_append_drop i l]
    rw [List.drop_eq_getElem_cons h]
    simp [List.get_eq_getElem]

theorem mem_reconcile (i : Nat) (pids actual : List PresenceID) (p : PresenceID) :
    p ∈ reconcile i pids actual ↔
      p ∈ pids.take i ∨ (p ∈ pids.drop i ∧ p ∈ actual) := by
  induction i, pids, actual using reconcile.induct with
  | case1 i pids actual h j hfind ih =>
    have hstep : reconcile i pids actual = reconcile (i + 1) pids (swapRemove actual j) := by
      rw [reconcile, dif_pos h, hfind]
    rw [hstep, ih]
    obtain ⟨hj, hgetj⟩ := findMatchIdx_some hfind
    obtain ⟨tP, rP, htP, hP⟩ := decomp_at pids i h
    obtain ⟨tA, rA, htA, hA⟩ := decomp_at actual j hj
    generalize hpid : pids.get ⟨i, h⟩ = pid at hgetj hP
    rw [hgetj] at hA
    have htake : pids.take i = tP := by rw [hP, ← htP, List.take_left]
    have hdrop : pids.drop i = pid :: rP := by
      rw [hP, ← htP, List.drop_left]
    have htake1 : pids.take (i + 1) = tP ++ [pid] := by
      rw [hP, ← htP, List.take_append_eq_append_take]
      simp [List.take_of_length_le]
    have hdrop1 : pids.drop (i + 1) = rP := by
      rw [hP, ← htP, List.drop_append_eq_append_drop]
      simp
    rcases List.eq_nil_or_concat rA with hrA | ⟨rA', b, hrA⟩
    · subst hrA
      have hsw : swapRemove actual j = tA := by
        rw [hA, ← htA]; exact swapRemove_last tA _
      rw [htake1, hdrop1, htake, hdrop, hsw, hA]
      by_cases hp : p = pid
      · subst hp; simp
      · simp only [List.mem_append, List.mem_cons, List.mem_singleton, hp, or_false,
          false_or]
        tauto
    · subst hrA
      have hsw : swapRemove actual j = tA ++ b :: rA' := by
        rw [hA, ← htA, List.concat_eq_append]
        exact swapRemove_concat tA _ rA' b
      rw [htake1, hdrop1, htake, hdrop, hsw, hA]
      by_cases hp : p = pid
      · subst hp; simp [List.concat_eq_append]
      · simp only [List.concat_eq_append, List.mem_append, List.mem_cons,
          List.mem_singleton, hp, or_false, false_or]
        tauto
  | case2 i pids actual h hfind ih =>
    have hstep : reconcile i pids actual = reconcile i (swapRemove pids i) actual := by
      rw [reconcile, dif_pos h, hfind]
    rw [hstep, ih]
    have hnotin : pids.get ⟨i, h⟩ ∉ actual := findMatchIdx_none hfind
    obtain ⟨tP, rP, htP, hP⟩ := decomp_at pids i h
    generalize hpid : pids.get ⟨i, h⟩ = pid at hnotin hP
    have htake : pids.take i = tP := by rw [hP, ← htP, List.take_left]
    have hdrop : pids.drop i = pid :: rP := by
      rw [hP, ← htP, List.drop_left]
    rcases List.eq_nil_or_concat rP with hrP | ⟨rP', b, hrP⟩
    · subst hrP
      have hsw : swapRemove pids i = tP := by
        rw [hP, ← htP]; exact swapRemove_last tP _
      have htake' : (swapRemove pids i).take i = tP := by
        rw [hsw]; exact List.take_of_length_le (by omega)
      have hdrop' : (swapRemove pids i).drop i = [] := by
        rw [hsw]; exact List.drop_eq_nil_of_le (by omega)
      rw [htake', hdrop', htake, hdrop]
      by_cases hp : p = pid
      · subst hp; simp [hnotin]
      · simp [hp]
    · subst hrP
      have hsw : swapRemove pids i = tP ++ b :: rP' := by
        rw [hP, ← htP, List.concat_eq_append]
        exact swapRemove_concat tP _ rP' b
      have htake' : (swapRemove pids i).take i = tP := by
        rw [hsw, ← htP, List.take_left]
      have hdrop' : (swapRemove pids i).drop i = b :: rP' := by
        rw [hsw, ← htP, List.drop_left]
      rw [htake', hdrop', htake, hdrop]
      by_cases hp : p = pid
      · subst hp; simp [hnotin]
      · simp only [List.concat_eq_append, List.mem_append, List.mem_cons,
          List.mem_singleton, hp, false_or]
        tauto
  | case3 i pids actual h =>
    have hstep : reconcile i pids actual = pids := by
      rw [reconcile, dif_neg h]
    rw [hstep, List.take_of_length_le (by omega), List.drop_eq_nil_of_le (by omega)]
    simp

theorem nodup_reconcile (i : Nat) (pids actual : List PresenceID) :
    actual.Nodup → (pids.take i).Nodup → (∀ p ∈ pids.take i, p ∉ actual) →
    (reconcile i pids actual).Nodup := by
  induction i, pids, actual using reconcile.induct with
  | case1 i pids actual h j hfind ih =>
    intro hA hT hD
    have hstep : reconcile i pids actual = reconcile (i + 1) pids (swapRemove actual j) := by
      rw [reconcile, dif_pos h, hfind]
    rw [hstep]
    obtain ⟨hj, hgetj⟩ := findMatchIdx_some hfind
    obtain ⟨tP, rP, htP, hP⟩ := decomp_at pids i h
    obtain ⟨tA, rA, htA, hAd⟩ := decomp_at actual j hj
    generalize hpid : pids.get ⟨i, h⟩ = pid at hgetj hP
    rw [hgetj] at hAd
    have htake : pids.take i = tP := by rw [hP, ← htP, List.take_left]
    have htake1 : pids.take (i + 1) = tP ++ [pid] := by
      rw [hP, ← htP, List.take_append_eq_append_take]
      simp [List.take_of_length_le]
    rw [htake] at hT hD
    have hpidmem : pid ∈ actual := by rw [hAd]; simp
    have hpidtP : pid ∉ tP := fun hmem => hD pid hmem hpidmem
    have hmid : pid ∉ tA ++ rA ∧ (tA ++ rA).Nodup := by
      have := hA
      rw [hAd, List.nodup_middle] at this
      exact List.nodup_cons.mp this
    rcases List.eq_nil_or_concat rA with hrA | ⟨rA', b, hrA⟩
    · subst hrA
      have hsw : swapRemove actual j = tA := by
        rw [hAd, ← htA]; exact swapRemove_last tA _
      apply ih
      · rw [hsw]
        simpa using hmid.2
      · rw [htake1, List.nodup_append]
        exact ⟨hT, List.nodup_singleton pid, by
          intro a ha hb
          rcases List.mem_singleton.mp hb with rfl
          exact hpidtP ha⟩
      · intro p hp
        rw [hsw]
        rw [htake1] at hp
        rcases List.mem_append.mp hp with hp | hp
        · intro hmem
          exact hD p hp (by rw [hAd]; simp [hmem])
        · rcases List.mem_singleton.mp hp with rfl
          intro hmem
          exact hmid.1 (by simp [hmem])
    · subst hrA
      have hsw : swapRemove actual j = tA ++ b :: rA' := by
        rw [hAd, ← htA, List.concat_eq_append]
        exact swapRemove_concat tA _ rA' b
      apply ih
      · rw [hsw]
        have hperm : (tA ++ b :: rA').Perm (tA ++ (rA' ++ [b])) :=
          List.Perm.append_left tA (List.perm_append_singleton b rA').symm
        refine hperm.symm.nodup ?_
        simpa [List.concat_eq_append] using hmid.2
      · rw [htake1, List.nodup_append]
        exact ⟨hT, List.nodup_singleton pid, by
          intro a ha hb
          rcases List.mem_singleton.mp hb with rfl
          exact hpidtP ha⟩
      · intro p hp
        rw [hsw]
        rw [htake1] at hp
        rcases List.mem_append.mp hp with hp | hp
        · intro hmem
          apply hD p hp
          rw [hAd]
          simp only [List.concat_eq_append, List.mem_append, List.mem_cons] at hmem ⊢
          tauto
        · rcases List.mem_singleton.mp hp with rfl
          intro hmem
          apply hmid.1
          simp only [List.concat_eq_append, List.mem_append, List.mem_cons] at hmem ⊢
          tauto
  | case2 i pids actual h hfind ih =>
    intro hA hT hD
    have hstep : reconcile i pids actual = reconcile i (swapRemove pids i) actual := by
      rw [reconcile, dif_pos h, hfind]
    rw [hstep]
    obtain ⟨tP, rP, htP, hP⟩ := decomp_at pids i h
    generalize hpid : pids.get ⟨i, h⟩ = pid at hP
    have htake : pids.take i = tP := by rw [hP, ← htP, List.take_left]
    rw [htake] at hT hD
    rcases List.eq_nil_or_concat rP with hrP | ⟨rP', b, hrP⟩
    · subst hrP
      have hsw : swapRemove pids i = tP := by
        rw [hP, ← htP]; exact swapRemove_last tP _
      have htake' : (swapRemove pids i).take i = tP := by
        rw [hsw]; exact List.take_of_length_le (by omega)
      apply ih hA
      · rw [htake']; exact hT
      · rw [htake']; exact hD
    · subst hrP
      have hsw : swapRemove pids i = tP ++ b :: rP' := by
        rw [hP, ← htP, List.concat_eq_append]
        exact swapRemove_concat tP _ rP' b
      have htake' : (swapRemove pids i).take i = tP := by
        rw [hsw, ← htP, List.take_left]
      apply ih hA
      · rw [htake']; exact hT
      · rw [htake']; exact hD
  | case3 i pids actual h =>
    intro hA hT hD
    have hstep : reconcile i pids actual = pids := by
      rw [reconcile, dif_neg h]
    rw [hstep]
    rw [List.take_of_length_le (by omega)] at hT
    exact hT

theorem resolveFilterStep_mem (presenceList pids kept : List PresenceID)
    (hk : resolveFilterStep presenceList pids = some kept) (p : PresenceID) :
    p ∈ kept ↔ p ∈ pids ∧ p ∈ presenceList := by
  unfold resolveFilterStep at hk
  dsimp only [] at hk
  split at hk
  · rename_i hlen
    obtain ⟨p0, rfl⟩ := List.length_eq_one.mp hlen
    split at hk
    · rename_i hcont
      obtain rfl : [p0] = kept := by simpa using hk
      have hp0 : p0 ∈ presenceList := (containsPresence_iff_mem presenceList p0).mp (by simpa using hcont)
      constructor
      · intro hp
        rcases List.mem_singleton.mp hp with rfl
        exact ⟨List.mem_singleton_self p, hp0⟩
      · rintro ⟨hp, _⟩
        exact hp
    · exact absurd hk (by simp)
  · split at hk
    · exact absurd hk (by simp)
    · rename_i hkept
      obtain rfl : reconcile 0 pids (listPresenceIDs presenceList) = kept := by
        simpa using hk
      rw [mem_reconcile]
      simp [listPresenceIDs]

theorem resolveFilterStep_none_iff (presenceList pids : List PresenceID) :
    resolveFilterStep presenceList pids = none ↔ ∀ p ∈ pids, p ∉ presenceList := by
  unfold resolveFilterStep
  dsimp only []
  split
  · rename_i hlen
    obtain ⟨p0, rfl⟩ := List.length_eq_one.mp hlen
    split
    · rename_i hcont
      have hp0 : p0 ∈ presenceList := (containsPresence_iff_mem presenceList p0).mp (by simpa using hcont)
      simp [hp0]
    · rename_i hcont
      have hp0 : p0 ∉ presenceList := fun hmem =>
        hcont (by simpa using (containsPresence_iff_mem presenceList p0).mpr hmem)
      simp [hp0]
  · split
    · rename_i hkept
      rw [List.isEmpty_iff] at hkept
      have hmem : ∀ p, p ∈ reconcile 0 pids (listPresenceIDs presenceList) ↔
          p ∈ pids ∧ p ∈ presenceList := by
        intro p
        rw [mem_reconcile]
        simp [listPresenceIDs]
      refine ⟨fun _ => ?_, fun _ => rfl⟩
      intro p hp hmem2
      have : p ∈ reconcile 0 pids (listPresenceIDs presenceList) := (hmem p).mpr ⟨hp, hmem2⟩
      rw [hkept] at this
      exact absurd this (by simp)
    · rename_i hkept
      rw [List.isEmpty_iff] at hkept
      have hne : reconcile 0 pids (listPresenceIDs presenceList) ≠ [] := fun hh => hkept (by simp [hh])
      obtain ⟨q, hq⟩ := List.exists_mem_of_ne_nil _ hne
      have hq2 : q ∈ pids ∧ q ∈ presenceList := by
        have := (mem_reconcile 0 pids (listPresenceIDs presenceList) q).mp hq
        simpa [listPresenceIDs] using this
      refine ⟨fun hcontra => absurd hcontra (by simp), fun hall => ?_⟩
      exact absurd hq2.2 (hall q hq2.1)

theorem resolveFilterStep_nodup (presenceList pids kept : List PresenceID)
    (hnd : presenceList.Nodup)
    (hk : resolveFilterStep presenceList pids = some kept) : kept.Nodup := by
  unfold resolveFilterStep at hk
  dsimp only [] at hk
  split at hk
  · rename_i hlen
    obtain ⟨p0, rfl⟩ := List.length_eq_one.mp hlen
    split at hk
    · obtain rfl : [p0] = kept := by simpa using hk
      exact List.nodup_singleton p0
    · exact absurd hk (by simp)
  · split at hk
    · exact absurd hk (by simp)
    · obtain rfl : reconcile 0 pids (listPresenceIDs presenceList) = kept := by
        simpa using hk
      exact nodup_reconcile 0 pids (listPresenceIDs presenceList) hnd (by simp) (by simp)

theorem validateBroadcast_with_filter (matchIdStr : String)
    (presenceList : List PresenceID) (a0 a1 a2 a3 a4 : JsValue)
    (n : Int) (d : Option String) (sp : Option UserPresence) (b : Bool)
    (pids : List PresenceID)
    (h0 : getJsInt a0 = Except.ok n) (h1 : decodeDataArg a1 = Except.ok d)
    (h2 : decodeFilterArg a2 = Except.ok (some pids)) (hne : pids ≠ [])
    (h3 : decodeSenderArg a3 = Except.ok sp)
    (h4 : decodeReliableArg a4 = Except.ok b) :
    validateBroadcast matchIdStr presenceList a0 a1 a2 a3 a4 =
      match resolveFilterStep presenceList pids with
      | none => Except.ok ([], none, false)
      | some kept =>
        Except.ok (kept, some ⟨matchIdStr, sp, n, d, b⟩, b) := by
  simp only [validateBroadcast, h0, h1, h2, h3, h4, Bind.bind, Except.bind]
  rw [if_neg (by simpa using hne)]
  cases hstep : resolveFilterStep presenceList pids with
  | none => simp [hstep, pure, Except.pure]
  | some kept => simp [hstep, pure, Except.pure]

/-! ## Claim theorems -/

/-- C1: every call to `broadcastMessage`, `broadcastMessageDeferred`,
`matchKick`, or `matchLabelUpdate` made while the match's StoppedFlag is
set fails with the fatal MatchStopped condition before doing anything
else: no envelope is built, no message is sent or deferred, no kick is
issued, and no label is updated. -/
theorem claim_C1_stopped_always_fatal (matchIdStr : String)
    (presenceList : List PresenceID) (a0 a1 a2 a3 a4 k0 l0 : JsValue) :
    broadcastMessage true matchIdStr presenceList a0 a1 a2 a3 a4 =
        BroadcastOutcome.errOut "match stopped" ∧
    broadcastMessageDeferred true matchIdStr presenceList a0 a1 a2 a3 a4 =
        DeferOutcome.errOut "match stopped" ∧
    matchKick true k0 = KickOutcome.errOut "match stopped" ∧
    matchLabelUpdate true l0 = LabelOutcome.errOut "match stopped" :=
  ⟨rfl, rfl, rfl, rfl⟩

/-- C4 (code bug): the sender username validation in `validateBroadcast`
re-checks the session-id value instead of the username value, so a sender
whose `username` is not a string is accepted without a ProtocolViolation,
and the envelope's declared sender username is assigned the session-id
string rather than the supplied username. -/
theorem claim_C4_username_validation_bug :
    decodeSenderArg (JsValue.val (GoVal.vMap
        [("user_id", GoVal.vStr "11111111-2222-3333-4444-555555555555"),
         ("session_id", GoVal.vStr "66666666-7777-8888-9999-aaaaaaaaaaaa"),
         ("username", GoVal.vInt 42)])) =
      Except.ok (some
        { userId := "11111111-2222-3333-4444-555555555555",
          sessionId := "66666666-7777-8888-9999-aaaaaaaaaaaa",
          username := "66666666-7777-8888-9999-aaaaaaaaaaaa" }) := rfl

/-- C6: a `MatchLoop` call snapshots the inbound queue's length at call
start, removes exactly that many messages in FIFO arrival order, and
passes them (converted in order) to the handler; messages enqueued after
the snapshot are left on the channel for the next call. -/
theorem claim_C6_drain_snapshot_fifo (tick : Int) (state : GoVal)
    (q r : List MatchDataMessage) (handler : Int → GoVal → List GoVal → JsValue) :
    matchLoopDrain q.length (q ++ r) = (q, r) ∧
    MatchLoop tick state q r handler =
      (matchLoopPost (handler tick state (q.map msgToObj)), r) := by
  constructor
  · simp [matchLoopDrain, List.take_left, List.drop_left]
  · simp [MatchLoop, matchLoopDrain, List.take_left, List.drop_left]

/-- C7: a `MatchLoop` handler return of JS `null` or `undefined` succeeds
as `(nil, nil)` (a no-op, state unchanged); any other return value
succeeds exactly when it is an object carrying a `state` property, and
otherwise fails with a ProtocolViolation. -/
theorem claim_C7_loop_null_noop (rv : JsValue) :
    matchLoopPost JsValue.null = Except.ok none ∧
    matchLoopPost JsValue.undef = Except.ok none ∧
    ((∃ out, matchLoopPost rv = Except.ok out) ↔
      (rv = JsValue.null ∨ rv = JsValue.undef ∨
        ∃ m, rv = JsValue.val (GoVal.vMap m) ∧ (findGo m "state").isSome)) := by
  refine ⟨rfl, rfl, ?_⟩
  cases rv with
  | null => simp [matchLoopPost]
  | undef => simp [matchLoopPost]
  | val v =>
    cases v <;> simp [matchLoopPost]
    case vMap m =>
      cases hst : findGo m "state" <;> simp [hst]

/-- C8: decoding the padded URL-safe base64 encoding of any byte string
returns the original byte string, including the empty string and strings
whose bytes fall outside the URL-safe alphabet. -/
theorem claim_C8_base64_url_roundtrip (s : List Nat) (h : ∀ b ∈ s, b < 256) :
    base64UrlDecode (base64UrlEncode s true) true = some s := by
  show b64DecodeBytes (b64EncodeBytes s) = some s
  exact b64DecodeBytes_b64EncodeBytes s h

theorem claim_C8_witness :
    base64UrlDecode (base64UrlEncode [104, 101, 121, 255, 0] true) true =
      some [104, 101, 121, 255, 0] :=
  claim_C8_base64_url_roundtrip [104, 101, 121, 255, 0] (by decide)

/-- C9 (counterexample): an `httpRequest` call made with a timeout
argument of 1000 ms mutates the shared HTTP client, so the next call made
without a timeout argument uses 1000 ms, not the module's 5-second
default — the claim that the configuration outside the current call stays
unchanged is false. -/
theorem claim_C9_counterexample :
    (httpRequestTimeout
        (httpRequestTimeout NewRuntimeJavascriptNakamaModule (some 1000)).1 none).2 = 1000 ∧
    ¬ (httpRequestTimeout
        (httpRequestTimeout NewRuntimeJavascriptNakamaModule (some 1000)).1 none).2 =
      NewRuntimeJavascriptNakamaModule.clientTimeoutMs :=
  ⟨rfl, by decide⟩

/-- C9 (amended): the timeout supplied to an `httpRequest` call overwrites
the module's shared HTTP client timeout and persists: a subsequent call
without a timeout argument uses the most recently supplied timeout, not
the 5-second default the client was constructed with. -/
theorem claim_C9_timeout_persists (st : NakamaModuleState) (t : Int) :
    (httpRequestTimeout st (some t)).1.clientTimeoutMs = t ∧
    (httpRequestTimeout st (some t)).2 = t ∧
    (httpRequestTimeout st none).2 = st.clientTimeoutMs ∧
    (httpRequestTimeout (httpRequestTimeout st (some t)).1 none).2 = t ∧
    NewRuntimeJavascriptNakamaModule.clientTimeoutMs = 5000 :=
  ⟨rfl, rfl, rfl, rfl, rfl⟩

/-- C5: a supplied empty recipient filter makes broadcast resolution a
no-op — nothing is sent and no envelope is built, whatever the presence
directory contains — and the empty filter raises no error. -/
theorem claim_C5_empty_filter_noop (matchIdStr : String)
    (presenceList : List PresenceID) (opCode : Int) (a1 a3 a4 : JsValue)
    (d : Option String) (hdata : decodeDataArg a1 = Except.ok d) :
    validateBroadcast matchIdStr presenceList (JsValue.val (GoVal.vInt opCode)) a1
        (JsValue.val (GoVal.vArr [])) a3 a4 = Except.ok ([], none, false) ∧
    broadcastMessage false matchIdStr presenceList (JsValue.val (GoVal.vInt opCode)) a1
        (JsValue.val (GoVal.vArr [])) a3 a4 = BroadcastOutcome.noSend := by
  have h0 : getJsInt (JsValue.val (GoVal.vInt opCode)) = Except.ok opCode := rfl
  have hfil : decodeFilterArg (JsValue.val (GoVal.vArr [])) =
      Except.ok (some ([] : List PresenceID)) := rfl
  have hval : validateBroadcast matchIdStr presenceList (JsValue.val (GoVal.vInt opCode)) a1
      (JsValue.val (GoVal.vArr [])) a3 a4 = Except.ok ([], none, false) := by
    simp only [validateBroadcast, h0, hdata, hfil, Bind.bind, Except.bind]
    simp [pure, Except.pure]
  exact ⟨hval, by simp [broadcastMessage, hval]⟩

theorem claim_C5_witness :
    validateBroadcast "match1" [⟨"s1", "n1"⟩] (JsValue.val (GoVal.vInt 7)) JsValue.null
        (JsValue.val (GoVal.vArr [])) (JsValue.val GoVal.vOther) JsValue.undef =
      Except.ok ([], none, false) ∧
    broadcastMessage false "match1" [⟨"s1", "n1"⟩] (JsValue.val (GoVal.vInt 7)) JsValue.null
        (JsValue.val (GoVal.vArr [])) (JsValue.val GoVal.vOther) JsValue.undef =
      BroadcastOutcome.noSend :=
  claim_C5_empty_filter_noop "match1" [⟨"s1", "n1"⟩] 7 JsValue.null
    (JsValue.val GoVal.vOther) JsValue.undef none rfl

/-- C2: for a supplied non-empty recipient filter, requested presences
that are not current members are silently dropped without an error, the
requested presences that are current members are still resolved and
receive the message, and when no requested recipient is a current member
the call sends nothing. -/
theorem claim_C2_filter_silent_drop (matchIdStr : String)
    (presenceList : List PresenceID) (a0 a1 a2 a3 a4 : JsValue)
    (n : Int) (d : Option String) (sp : Option UserPresence) (b : Bool)
    (pids : List PresenceID)
    (h0 : getJsInt a0 = Except.ok n) (h1 : decodeDataArg a1 = Except.ok d)
    (h2 : decodeFilterArg a2 = Except.ok (some pids)) (hne : pids ≠ [])
    (h3 : decodeSenderArg a3 = Except.ok sp)
    (h4 : decodeReliableArg a4 = Except.ok b) :
    ((∀ p ∈ pids, p ∉ presenceList) →
      broadcastMessage false matchIdStr presenceList a0 a1 a2 a3 a4 =
        BroadcastOutcome.noSend) ∧
    ((∃ p ∈ pids, p ∈ presenceList) →
      ∃ kept, broadcastMessage false matchIdStr presenceList a0 a1 a2 a3 a4 =
          BroadcastOutcome.sent kept (some ⟨matchIdStr, sp, n, d, b⟩) b ∧
        ∀ p, p ∈ kept ↔ (p ∈ pids ∧ p ∈ presenceList)) := by
  have hv := validateBroadcast_with_filter matchIdStr presenceList a0 a1 a2 a3 a4
    n d sp b pids h0 h1 h2 hne h3 h4
  constructor
  · intro hall
    have hnone := (resolveFilterStep_none_iff presenceList pids).mpr hall
    rw [hnone] at hv
    simp [broadcastMessage, hv]
  · rintro ⟨p, hp, hmem⟩
    cases hstep : resolveFilterStep presenceList pids with
    | none =>
      exact absurd hmem ((resolveFilterStep_none_iff presenceList pids).mp hstep p hp)
    | some kept =>
      rw [hstep] at hv
      have hchar := resolveFilterStep_mem presenceList pids kept hstep
      have hpk : p ∈ kept := (hchar p).mpr ⟨hp, hmem⟩
      have hklen : kept.length ≠ 0 := by
        cases kept with
        | nil => simp at hpk
        | cons x xs => simp
      exact ⟨kept, by simp [broadcastMessage, hv, hklen], hchar⟩

theorem claim_C2_witness :
    broadcastMessage false "match1"
      [⟨"00000000-0000-0000-0000-000000000001", "node1"⟩]
      (JsValue.val (GoVal.vInt 7)) JsValue.null
      (JsValue.val (GoVal.vArr [GoVal.vMap
        [("session_id", GoVal.vStr "00000000-0000-0000-0000-000000000002"),
         ("node_id", GoVal.vStr "node1")]]))
      JsValue.null JsValue.undef = BroadcastOutcome.noSend :=
  (claim_C2_filter_silent_drop "match1"
    [⟨"00000000-0000-0000-0000-000000000001", "node1"⟩]
    (JsValue.val (GoVal.vInt 7)) JsValue.null
    (JsValue.val (GoVal.vArr [GoVal.vMap
      [("session_id", GoVal.vStr "00000000-0000-0000-0000-000000000002"),
       ("node_id", GoVal.vStr "node1")]]))
    JsValue.null JsValue.undef 7 none none true
    [⟨"00000000-0000-0000-0000-000000000002", "node1"⟩]
    rfl rfl rfl (by simp) rfl rfl).1 (by decide)

/-- C10: with a non-empty recipient filter and a presence directory with
pairwise-distinct (SessionID, Node) entries, the resolved recipient list
of a broadcast contains no duplicate PresenceID, so no member is sent the
same broadcast twice. -/
theorem claim_C10_no_duplicate_recipients (matchIdStr : String)
    (presenceList : List PresenceID) (a0 a1 a2 a3 a4 : JsValue)
    (n : Int) (d : Option String) (sp : Option UserPresence) (b : Bool)
    (pids : List PresenceID)
    (hnd : presenceList.Nodup)
    (h0 : getJsInt a0 = Except.ok n) (h1 : decodeDataArg a1 = Except.ok d)
    (h2 : decodeFilterArg a2 = Except.ok (some pids)) (hne : pids ≠ [])
    (h3 : decodeSenderArg a3 = Except.ok sp)
    (h4 : decodeReliableArg a4 = Except.ok b) :
    (sentRecipients (broadcastMessage false matchIdStr presenceList a0 a1 a2 a3 a4)).Nodup := by
  have hv := validateBroadcast_with_filter matchIdStr presenceList a0 a1 a2 a3 a4
    n d sp b pids h0 h1 h2 hne h3 h4
  cases hstep : resolveFilterStep presenceList pids with
  | none =>
    rw [hstep] at hv
    simp [broadcastMessage, hv, sentRecipients]
  | some kept =>
    rw [hstep] at hv
    have hknd := resolveFilterStep_nodup presenceList pids kept hnd hstep
    by_cases hklen : kept.length ≠ 0
    · simpa [broadcastMessage, hv, hklen, sentRecipients] using hknd
    · simp [broadcastMessage, hv, hklen, sentRecipients]

theorem claim_C10_witness :
    (sentRecipients (broadcastMessage false "match1"
      [⟨"00000000-0000-0000-0000-000000000001", "node1"⟩]
      (JsValue.val (GoVal.vInt 7)) JsValue.null
      (JsValue.val (GoVal.vArr
        [GoVal.vMap
          [("session_id", GoVal.vStr "00000000-0000-0000-0000-000000000001"),
           ("node_id", GoVal.vStr "node1")],
         GoVal.vMap
          [("session_id", GoVal.vStr "00000000-0000-0000-0000-000000000001"),
           ("node_id", GoVal.vStr "node1")]]))
      JsValue.null JsValue.undef)).Nodup :=
  claim_C10_no_duplicate_recipients "match1"
    [⟨"00000000-0000-0000-0000-000000000001", "node1"⟩]
    (JsValue.val (GoVal.vInt 7)) JsValue.null
    (JsValue.val (GoVal.vArr
      [GoVal.vMap
        [("session_id", GoVal.vStr "00000000-0000-0000-0000-000000000001"),
         ("node_id", GoVal.vStr "node1")],
       GoVal.vMap
        [("session_id", GoVal.vStr "00000000-0000-0000-0000-000000000001"),
         ("node_id", GoVal.vStr "node1")]]))
    JsValue.null JsValue.undef 7 none none true
    [⟨"00000000-0000-0000-0000-000000000001", "node1"⟩,
     ⟨"00000000-0000-0000-0000-000000000001", "node1"⟩]
    (by decide) rfl rfl rfl (by simp) rfl rfl

/-- C3 (counterexample): a handler return value carrying an in-range
integer tick rate (5) and a state property nevertheless fails `MatchInit`
when its label property is not a string, refuting the claimed
success-iff-valid-tick-rate-and-state equivalence. -/
theorem claim_C3_counterexample :
    findGo [("tick_rate", GoVal.vInt 5), ("state", GoVal.vInt 0), ("label", GoVal.vInt 42)]
        "tick_rate" = some (GoVal.vInt 5) ∧
    (findGo [("tick_rate", GoVal.vInt 5), ("state", GoVal.vInt 0), ("label", GoVal.vInt 42)]
        "state").isSome = true ∧
    MatchInit (GoVal.vMap
        [("tick_rate", GoVal.vInt 5), ("state", GoVal.vInt 0), ("label", GoVal.vInt 42)]) =
      Except.error "match_init 'label' value must be a string" :=
  ⟨rfl, rfl, rfl⟩

/-- C3 (amended): `MatchInit` succeeds iff the handler's return value is
an object carrying an integer `tick_rate` in [1,30] and a `state`
property, and any `label` property present is a string; in particular
tick rates 0 and 31, a string tick rate, and an omitted tick rate all
fail with a ConfigurationError and no tick rate is established. -/
theorem claim_C3_init_validation (retVal : GoVal) :
    (∃ res, MatchInit retVal = Except.ok res) ↔
      ∃ m r state, retVal = GoVal.vMap m ∧
        findGo m "tick_rate" = some (GoVal.vInt r) ∧ 1 ≤ r ∧ r ≤ 30 ∧
        findGo m "state" = some state ∧
        (findGo m "label" = none ∨ ∃ l, findGo m "label" = some (GoVal.vStr l)) := by
  cases retVal with
  | vMap m =>
    simp only [MatchInit]
    cases htr : findGo m "tick_rate" with
    | none => simp [htr]
    | some trv =>
      cases trv with
      | vInt r =>
        dsimp only
        by_cases hr : r < 1 ∨ r > 30
        · rw [if_pos hr]
          constructor
          · rintro ⟨res, hres⟩
            exact absurd hres (by simp)
          · rintro ⟨m2, r2, st2, hm2, htr2, h1, h30, -, -⟩
            obtain rfl : m2 = m := by injection hm2 with h; exact h.symm
            rw [htr] at htr2
            obtain rfl : r2 = r := by simpa using htr2.symm
            omega
        · rw [if_neg hr]
          push_neg at hr
          cases hl : findGo m "label" with
          | none =>
            cases hst : findGo m "state" with
            | none =>
              constructor
              · rintro ⟨res, hres⟩
                exact absurd hres (by simp)
              · rintro ⟨m2, r2, st2, hm2, -, -, -, hst2, -⟩
                obtain rfl : m2 = m := by injection hm2 with h; exact h.symm
                rw [hst] at hst2
                exact absurd hst2 (by simp)
            | some st =>
              constructor
              · intro
                exact ⟨m, r, st, rfl, htr, hr.1, by omega, hst, Or.inl hl⟩
              · intro
                exact ⟨⟨st, r, ""⟩, rfl⟩
          | some lv =>
            cases lv with
            | vStr l =>
              cases hst : findGo m "state" with
              | none =>
                constructor
                · rintro ⟨res, hres⟩
                  exact absurd hres (by simp)
                · rintro ⟨m2, r2, st2, hm2, -, -, -, hst2, -⟩
                  obtain rfl : m2 = m := by injection hm2 with h; exact h.symm
                  rw [hst] at hst2
                  exact absurd hst2 (by simp)
              | some st =>
                constructor
                · intro
                  exact ⟨m, r, st, rfl, htr, hr.1, by omega, hst, Or.inr ⟨l, hl⟩⟩
                · intro
                  exact ⟨⟨st, r, l⟩, rfl⟩
            | vNull =>
              constructor
              · rintro ⟨res, hres⟩
                exact absurd hres (by simp)
              · rintro ⟨m2, r2, st2, hm2, -, -, -, -, hlbl⟩
                obtain rfl : m2 = m := by injection hm2 with h; exact h.symm
                rcases hlbl with hlbl | ⟨l2, hlbl⟩ <;> rw [hl] at hlbl <;>
                  exact absurd hlbl (by simp)
            | vInt k =>
              constructor
              · rintro ⟨res, hres⟩
                exact absurd hres (by simp)
              · rintro ⟨m2, r2, st2, hm2, -, -, -, -, hlbl⟩
                obtain rfl : m2 = m := by injection hm2 with h; exact h.symm
                rcases hlbl with hlbl | ⟨l2, hlbl⟩ <;> rw [hl] at hlbl <;>
                  exact absurd hlbl (by simp)
            | vFloat =>
              constructor
              · rintro ⟨res, hres⟩
                exact absurd hres (by simp)
              · rintro ⟨m2, r2, st2, hm2, -, -, -, -, hlbl⟩
                obtain rfl : m2 = m := by injection hm2 with h; exact h.symm
                rcases hlbl with hlbl | ⟨l2, hlbl⟩ <;> rw [hl] at hlbl <;>
                  exact absurd hlbl (by simp)
            | vBool bb =>
              constructor
              · rintro ⟨res, hres⟩
                exact absurd hres (by simp)
              · rintro ⟨m2, r2, st2, hm2, -, -, -, -, hlbl⟩
                obtain rfl : m2 = m := by injection hm2 with h; exact h.symm
                rcases hlbl with hlbl | ⟨l2, hlbl⟩ <;> rw [hl] at hlbl <;>
                  exact absurd hlbl (by simp)
            | vMap mm =>
              constructor
              · rintro ⟨res, hres⟩
                exact absurd hres (by simp)
              · rintro ⟨m2, r2, st2, hm2, -, -, -, -, hlbl⟩
                obtain rfl : m2 = m := by injection hm2 with h; exact h.symm
                rcases hlbl with hlbl | ⟨l2, hlbl⟩ <;> rw [hl] at hlbl <;>
                  exact absurd hlbl (by simp)
            | vArr aa =>
              constructor
              · rintro ⟨res, hres⟩
                exact absurd hres (by simp)
              · rintro ⟨m2, r2, st2, hm2, -, -, -, -, hlbl⟩
                obtain rfl : m2 = m := by injection hm2 with h; exact h.symm
                rcases hlbl with hlbl | ⟨l2, hlbl⟩ <;> rw [hl] at hlbl <;>
                  exact absurd hlbl (by simp)
            | vOther =>
              constructor
              · rintro ⟨res, hres⟩
                exact absurd hres (by simp)
              · rintro ⟨m2, r2, st2, hm2, -, -, -, -, hlbl⟩
                obtain rfl : m2 = m := by injection hm2 with h; exact h.symm
                rcases hlbl with hlbl | ⟨l2, hlbl⟩ <;> rw [hl] at hlbl <;>
                  exact absurd hlbl (by simp)
      | vNull => simp [htr]
      | vStr sv => simp [htr]
      | vFloat => simp [htr]
      | vBool bv => simp [htr]
      | vMap mv => simp [htr]
      | vArr av => simp [htr]
      | vOther => simp [htr]
  | vNull => simp [MatchInit]
  | vStr sv => simp [MatchInit]
  | vInt iv => simp [MatchInit]
  | vFloat => simp [MatchInit]
  | vBool bv => simp [MatchInit]
  | vArr av => simp [MatchInit]
  | vOther => simp [MatchInit]

end Nakama
